import Mathlib

/-!
Verification of the service-governance core of the go-zero framework.

Shallow embedding of the Go sources:
* `core/collection/rollingwindow.go` — rolling-window counter,
* the Google-SRE breaker (`googleBreaker`) and `core/mathx/proba.go`,
* the adaptive shedder (`adaptiveShedder`),
* `zrpc/internal/balancer/p2c/p2c.go` — P2C+EWMA picker,
* `core/collection/timingwheel.go` — hashed timing wheel,
* the expiring `Cache` (`Take`/`doGet`/`Set`),
* `core/discov/internal/registry.go` — cluster change fanout.

Go machine integers are modelled as `Int` (the operations proved about stay far
from the 64-bit boundaries), Go `float64` values that carry statistics are
modelled as `Rat`, and Go's truncating integer division/remainder as
`Int.tdiv`/`Int.tmod`.
-/

namespace GoZero

/-- Go's conversion `int64(x)` of a nonnegative-or-negative `float64` value:
truncation toward zero (modelled on exact rationals). -/
def truncQ (q : ℚ) : ℤ :=
  q.num.tdiv (q.den : ℤ)

/-- Go's `math.Round`: round half away from zero. -/
def roundQ (q : ℚ) : ℤ :=
  if 0 ≤ q then ⌊q + 1 / 2⌋ else -⌊-q + 1 / 2⌋

/-! ## Rolling window (core/collection/rollingwindow.go) -/

/-- A bucket holds the sum of added values and the number of additions
(`Bucket` in rollingwindow.go). -/
structure Bucket where
  sum : ℚ
  count : ℤ
  deriving Repr, DecidableEq

/-- `Bucket.add` of rollingwindow.go: `b.Sum += v; b.Count++`. -/
def Bucket.badd (b : Bucket) (v : ℚ) : Bucket :=
  { sum := b.sum + v, count := b.count + 1 }

/-- `Bucket.reset` of rollingwindow.go. -/
def Bucket.breset (_b : Bucket) : Bucket :=
  { sum := 0, count := 0 }

/-- The empty bucket (fresh windows start with all buckets zero). -/
def Bucket.zero : Bucket := { sum := 0, count := 0 }

/-- State of a `RollingWindow`.  Time is in abstract integer ticks
(Go `time.Duration` nanoseconds). -/
structure RollingWindow where
  size : ℕ
  buckets : List Bucket
  interval : ℤ
  offset : ℕ
  ignoreCurrent : Bool
  lastTime : ℤ
  deriving Repr, DecidableEq

/-- `NewRollingWindow(size, interval)`: all buckets empty, offset 0,
`lastTime = now`. -/
def RollingWindow.new (size : ℕ) (interval : ℤ) (ignoreCurrent : Bool)
    (now : ℤ) : RollingWindow :=
  { size := size
    buckets := List.replicate size Bucket.zero
    interval := interval
    offset := 0
    ignoreCurrent := ignoreCurrent
    lastTime := now }

/-- `RollingWindow.span`: `offset := int(timex.Since(rw.lastTime) / rw.interval)`,
returned when `0 ≤ offset < rw.size`, else `rw.size`.  Go division of
`time.Duration` is 64-bit truncating division, hence `Int.tdiv`. -/
def RollingWindow.span (rw : RollingWindow) (now : ℤ) : ℕ :=
  let o : ℤ := (now - rw.lastTime).tdiv rw.interval
  if 0 ≤ o ∧ o < (rw.size : ℤ) then o.toNat else rw.size

/-- `window.resetBucket(offset)`: `w.buckets[offset % w.size].reset()`. -/
def RollingWindow.resetBucket (rw : RollingWindow) (i : ℕ) : RollingWindow :=
  { rw with buckets := rw.buckets.set (i % rw.size) Bucket.zero }

/-- Reset the buckets `(offset + i + 1) % size` for `i < span`
(the loop inside `RollingWindow.updateOffset`). -/
def RollingWindow.resetSpan (rw : RollingWindow) (offset : ℕ) :
    ℕ → RollingWindow
  | 0 => rw
  | n + 1 => (rw.resetSpan offset n).resetBucket ((offset + n + 1) % rw.size)

/-- `RollingWindow.updateOffset`: slide the window at time `now`. -/
def RollingWindow.updateOffset (rw : RollingWindow) (now : ℤ) : RollingWindow :=
  let span := rw.span now
  if span ≤ 0 then rw
  else
    let rw' := rw.resetSpan rw.offset span
    { rw' with
      offset := (rw.offset + span) % rw.size
      lastTime := now - (now - rw.lastTime).tmod rw.interval }

/-- `window.add(offset, v)`: `w.buckets[offset % w.size].add(v)`. -/
def RollingWindow.winAdd (rw : RollingWindow) (v : ℚ) : RollingWindow :=
  { rw with
    buckets := rw.buckets.set (rw.offset % rw.size)
      ((rw.buckets.getD (rw.offset % rw.size) Bucket.zero).badd v) }

/-- `RollingWindow.Add(v)`: slide, then add into the current bucket. -/
def RollingWindow.addAt (rw : RollingWindow) (now : ℤ) (v : ℚ) : RollingWindow :=
  (rw.updateOffset now).winAdd v

/-- The list of bucket indices that `RollingWindow.Reduce` visits at time `now`:
`diff` buckets starting at `(offset + span + 1) % size`, where
`diff = size - 1` when `span = 0 ∧ ignoreCurrent`, else `size - span`;
nothing is visited when `diff ≤ 0` (`window.reduce` iterates
`fn(w.buckets[(start+i) % w.size])` for `i < count`). -/
def RollingWindow.reduceIndices (rw : RollingWindow) (now : ℤ) : List ℕ :=
  let span := rw.span now
  let diff := if span = 0 ∧ rw.ignoreCurrent then rw.size - 1 else rw.size - span
  if 0 < diff then
    (List.range diff).map (fun i => ((rw.offset + span + 1) % rw.size + i) % rw.size)
  else []

/-- The buckets `RollingWindow.Reduce` hands to `fn`, in visiting order. -/
def RollingWindow.reduceBuckets (rw : RollingWindow) (now : ℤ) : List Bucket :=
  (rw.reduceIndices now).map (fun i => rw.buckets.getD i Bucket.zero)

/-- Sum of `Bucket.Sum` over the buckets visited by `Reduce`
(the aggregation used by the rolling-window scenario). -/
def RollingWindow.reduceSum (rw : RollingWindow) (now : ℤ) : ℚ :=
  ((rw.reduceBuckets now).map Bucket.sum).sum

/-! ## Google-SRE breaker (`googleBreaker.accept`) and `Proba.TrueOnProba`

`history()` folds the rolling window into `(accepts, total)`; `accept()` is a
pure function of that snapshot and of the one uniform draw `r ∈ [0,1)` made by
`Proba.TrueOnProba` (`truth = p.r.Float64() < proba`). -/

namespace Breaker

/-- `k = 1.5` in breaker constants. -/
def kConst : ℚ := 3 / 2

/-- `protection = 5` in breaker constants. -/
def protection : ℤ := 5

/-- Outcome of `googleBreaker.accept`: `ok` models the `nil` return,
`serviceUnavailable` models `ErrServiceUnavailable`. -/
inductive AcceptResult where
  | ok
  | serviceUnavailable
  deriving Repr, DecidableEq

/-- `dropRatio := math.Max(0, (float64(total-protection)-weightedAccepts)/float64(total+1))`
with `weightedAccepts = k * accepts`.  `accepts`/`total` are the int64 snapshot
from `history()`. -/
def dropRatio (accepts total : ℤ) : ℚ :=
  max 0 ((((total - protection : ℤ) : ℚ) - kConst * (accepts : ℚ)) / ((total + 1 : ℤ) : ℚ))

/-- `googleBreaker.accept()`, with the uniform draw `r` of
`Proba.TrueOnProba` passed explicitly: `ok` models the `nil` return (the
request is let through) when `dropRatio ≤ 0`, else `ErrServiceUnavailable`
exactly when `r < dropRatio`. -/
def accept (accepts total : ℤ) (r : ℚ) : AcceptResult :=
  let ratio := dropRatio accepts total
  if ratio ≤ 0 then .ok
  else if r < ratio then .serviceUnavailable
  else .ok

/-- `googleBreaker.history()`: fold the visited buckets into
`(accepts, total)` with `accepts += int64(b.Sum)` and `total += b.Count`. -/
def history (bs : List Bucket) : ℤ × ℤ :=
  ((bs.map (fun b => truncQ b.sum)).sum, (bs.map Bucket.count).sum)

end Breaker

/-! ## Adaptive shedder (`adaptiveShedder` in core/load)

The shedder's mutable fields (`flying`, `avgFlying`, `overloadTime`,
`droppedRecently`) are threaded explicitly.  The two rolling counters enter as
the lists of buckets their `Reduce` hands to the callback at this instant
(`passBuckets` for `passCounter`, `rtBuckets` for `rtCounter`), and the result
of `systemOverloadChecker(cpuThreshold)` is the input `cpuOver`.  Time is in
nanoseconds (`time.Duration`). -/

namespace Shedder

/-- `defaultMinRt = float64(time.Second / time.Millisecond)` = 1000. -/
def defaultMinRt : ℚ := 1000

/-- `flyingBeta = 0.9`. -/
def flyingBeta : ℚ := 9 / 10

/-- `coolOffDuration = time.Second` in nanoseconds. -/
def coolOffDuration : ℤ := 1000000000

/-- Shedder state visible to `Allow`/`shouldDrop`. -/
structure State where
  windows : ℤ
  flying : ℤ
  avgFlying : ℚ
  overloadTime : ℤ
  droppedRecently : Bool
  passBuckets : List Bucket
  rtBuckets : List Bucket
  deriving Repr, DecidableEq

/-- `adaptiveShedder.maxPass()`: start from `result = 1`, take any bucket whose
`Sum` exceeds the running result, return `int64(result)`. -/
def maxPass (bs : List Bucket) : ℤ :=
  truncQ (bs.foldl (fun result b => if b.sum > result then b.sum else result) 1)

/-- `adaptiveShedder.minRt()`: start from `defaultMinRt`; for every bucket with
`Count > 0` compute `avg = math.Round(b.Sum / float64(b.Count))` and keep the
minimum. -/
def minRt (bs : List Bucket) : ℚ :=
  bs.foldl
    (fun result b =>
      if b.count ≤ 0 then result
      else
        let avg : ℚ := (roundQ (b.sum / (b.count : ℚ)) : ℤ)
        if avg < result then avg else result)
    defaultMinRt

/-- `adaptiveShedder.maxFlight()`:
`int64(math.Max(1, float64(as.maxPass()*as.windows)*(as.minRt()/1e3)))`. -/
def maxFlight (windows : ℤ) (passB rtB : List Bucket) : ℤ :=
  truncQ (max 1 (((maxPass passB * windows : ℤ) : ℚ) * (minRt rtB / 1000)))

/-- `adaptiveShedder.highThru()`:
`int64(avgFlying) > maxFlight && atomic.LoadInt64(&as.flying) > maxFlight`
(the float `avgFlying` is truncated by the int64 conversion). -/
def highThru (s : State) : Bool :=
  let mf := maxFlight s.windows s.passBuckets s.rtBuckets
  decide (mf < truncQ s.avgFlying) && decide (mf < s.flying)

/-- `adaptiveShedder.systemOverloaded()`: return the checker's verdict and on
overload record `overloadTime = now`. -/
def systemOverloaded (cpuOver : Bool) (s : State) (now : ℤ) : Bool × State :=
  if cpuOver then (true, { s with overloadTime := now }) else (false, s)

/-- `adaptiveShedder.stillHot()`: hot iff `droppedRecently` and
`overloadTime ≠ 0` and `now − overloadTime < coolOffDuration`; when the
cool-down has expired, clear `droppedRecently`. -/
def stillHot (s : State) (now : ℤ) : Bool × State :=
  if !s.droppedRecently then (false, s)
  else if s.overloadTime = 0 then (false, s)
  else if now - s.overloadTime < coolOffDuration then (true, s)
  else (false, { s with droppedRecently := false })

/-- The pure value of `stillHot` on the current state (no mutation). -/
def stillHotVal (s : State) (now : ℤ) : Bool :=
  s.droppedRecently && decide (s.overloadTime ≠ 0)
    && decide (now - s.overloadTime < coolOffDuration)

/-- `adaptiveShedder.shouldDrop()`:
`if as.systemOverloaded() || as.stillHot() { if as.highThru() { … return true } }; return false`.
The `||` short-circuits, and on the drop path the log message evaluates
`as.stillHot()` once more (its only effect there can be clearing
`droppedRecently`, which `Allow` overwrites right after). -/
def shouldDrop (cpuOver : Bool) (s : State) (now : ℤ) : Bool × State :=
  let so := systemOverloaded cpuOver s now
  if so.1 then
    if highThru so.2 then (true, (stillHot so.2 now).2) else (false, so.2)
  else
    let hot := stillHot so.2 now
    if hot.1 then
      if highThru hot.2 then (true, (stillHot hot.2 now).2) else (false, hot.2)
    else (false, hot.2)

/-- Result of `adaptiveShedder.Allow()`: `ErrServiceOverloaded`, or a promise
bound to `start = timex.Now()`. -/
inductive AllowResult where
  | overloaded
  | allowed (start : ℤ)
  deriving Repr, DecidableEq

/-- `adaptiveShedder.Allow()`: on `shouldDrop`, set `droppedRecently = true`
and return the overload error; otherwise `addFlying(1)` (no `avgFlying` update
for a positive delta) and return a promise with `start = now`. -/
def allow (cpuOver : Bool) (s : State) (now : ℤ) : AllowResult × State :=
  let d := shouldDrop cpuOver s now
  if d.1 then (.overloaded, { d.2 with droppedRecently := true })
  else (.allowed now, { d.2 with flying := d.2.flying + 1 })

/-- `promise.Pass`/`promise.Fail` call `addFlying(-1)`, which updates
`avgFlying ← 0.9·avgFlying + 0.1·flying` with the decremented `flying`. -/
def addFlyingNeg (s : State) : State :=
  let flying := s.flying - 1
  { s with
    flying := flying
    avgFlying := s.avgFlying * flyingBeta + (flying : ℚ) * (1 - flyingBeta) }

/-- The spec's reading of `highThru` (`avgFlying > maxFlight ∧
flying > maxFlight`, comparing the float `avgFlying` itself against the int64
ceiling, without the truncating conversion the code performs). -/
def highThruSpec (s : State) : Bool :=
  let mf := maxFlight s.windows s.passBuckets s.rtBuckets
  decide ((mf : ℚ) < s.avgFlying) && decide (mf < s.flying)

/-- The spec's reading of `maxPass` (`the largest count in any bucket of
passCounter`; no floor at 1, and `Count` rather than `Sum`). -/
def maxPassSpec (bs : List Bucket) : ℤ :=
  (bs.map Bucket.count).foldl max 0

/-- The spec's reading of `minRt` (`minimum of per-bucket averaged latency
sum/count across rtCounter, floored at 1 ms`). -/
def minRtSpec (bs : List Bucket) : ℚ :=
  ((bs.filter (fun b => 0 < b.count)).map (fun b => b.sum / (b.count : ℚ))).foldl
    (fun r x => min r (max 1 x)) defaultMinRt

/-- The spec's reading of the ceiling formula
`maxFlight = max(1, maxPass · windows · (minRt / 1000))` built from
`maxPassSpec` and `minRtSpec`. -/
def maxFlightSpec (windows : ℤ) (passB rtB : List Bucket) : ℚ :=
  max 1 ((maxPassSpec passB * windows : ℤ) * (minRtSpec rtB / 1000))

/-- Amended reading of `maxPass`: truncation of `max(1, largest bucket Sum)`. -/
def maxPassAmended (bs : List Bucket) : ℤ :=
  truncQ ((bs.map Bucket.sum).foldl max 1)

/-- Amended reading of `minRt`: minimum of `round(Sum/Count)` over the buckets
with positive count, starting from the 1000 ms default. -/
def minRtAmended (bs : List Bucket) : ℚ :=
  ((bs.filter (fun b => 0 < b.count)).map
    (fun b => ((roundQ (b.sum / (b.count : ℚ)) : ℤ) : ℚ))).foldl min defaultMinRt

end Shedder

/-! ## P2C picker (zrpc/internal/balancer/p2c/p2c.go)

`subConn.load` and `p2cPicker.choose`.  `lag` is the uint64 EWMA; the Go
expression `int64(math.Sqrt(float64(lag+1)))` is modelled by `Nat.sqrt`
(the floor square root; the float path computes the same integer for every
magnitude the EWMA can hold well below `2^52`).  The success of the
`CompareAndSwap` on the other conn's `pick` stamp depends on concurrent
interference and is taken as the input `casOk` (`true` for an undisturbed
call). -/

namespace P2C

/-- `forcePick = int64(time.Second)` nanoseconds. -/
def forcePick : ℤ := 1000000000

/-- `penalty = int64(math.MaxInt32)`. -/
def penalty : ℤ := 2147483647

/-- The per-address balancer state used by `choose`. -/
structure SubConn where
  lag : ℕ
  inflight : ℤ
  pick : ℤ
  deriving Repr, DecidableEq

/-- `subConn.load()`:
`lag := int64(math.Sqrt(float64(c.lag + 1))); load := lag * (inflight + 1)`,
with `penalty` substituted when the product is 0. -/
def load (c : SubConn) : ℤ :=
  let lag : ℤ := (Nat.sqrt (c.lag + 1) : ℤ)
  let load := lag * (c.inflight + 1)
  if load = 0 then penalty else load

/-- Outcome of `p2cPicker.choose(c1, c2)` for two conns: `idx` is 0 when the
first argument is returned and 1 for the second; `a`/`b` are the two
argument conns with their `pick` stamps as the call leaves them. -/
structure ChooseOut where
  idx : ℕ
  a : SubConn
  b : SubConn
  deriving Repr, DecidableEq

/-- `p2cPicker.choose(c1, c2)` with `c2 ≠ nil`: swap so the lower-loaded conn
comes first, then force-pick the other conn when its `pick` stamp is over
`forcePick` old and the CAS to `start` succeeds; otherwise stamp and return
the lower-loaded one. -/
def choose (a b : SubConn) (start : ℤ) (casOk : Bool) : ChooseOut :=
  if load a > load b then
    -- after the swap: c1 = b (lower), c2 = a
    if forcePick < start - a.pick ∧ casOk = true then
      ⟨0, { a with pick := start }, b⟩
    else
      ⟨1, a, { b with pick := start }⟩
  else
    -- c1 = a (lower or tied), c2 = b
    if forcePick < start - b.pick ∧ casOk = true then
      ⟨1, a, { b with pick := start }⟩
    else
      ⟨0, { a with pick := start }, b⟩

/-- `⌈√n⌉`: the least `m` with `n ≤ m²` (used only to state the claim's
reading of `load`). -/
def ceilSqrt (n : ℕ) : ℕ :=
  let s := Nat.sqrt n
  if s * s = n then s else s + 1

/-- The claim's reading of the load formula: `⌈√(lag+1)⌉ · (inflight+1)`. -/
def loadSpec (c : SubConn) : ℤ :=
  (ceilSqrt (c.lag + 1) : ℤ) * (c.inflight + 1)

/-- The argument with the strictly smaller `load` (the first argument on a
tie), i.e. the conn the code calls `c1` after its swap. -/
def loConn (a b : SubConn) : SubConn :=
  if load a > load b then b else a

/-- The other argument (the code's `c2` after its swap). -/
def hiConn (a b : SubConn) : SubConn :=
  if load a > load b then a else b

end P2C

/-! ## Timing wheel (core/collection/timingwheel.go)

The loop state that `setTask`/`moveTask` touch: the per-slot entry lists, the
`timers` index `key → pos`, the tick position.  Entries live inside the slot
lists; the Go map holds pointers into them, modelled here by locating the
(unique, per the data-model invariant) entry with the given key. -/

namespace TW

/-- `timingEntry`: `(key, value, delay, circle, diff, removed)`. -/
structure Entry where
  key : ℕ
  value : ℕ
  delay : ℤ
  circle : ℤ
  diff : ℤ
  removed : Bool
  deriving Repr, DecidableEq

/-- Wheel state owned by the background loop. -/
structure Wheel where
  interval : ℤ
  numSlots : ℕ
  tickedPos : ℕ
  slots : List (List Entry)
  timers : List (ℕ × ℕ)
  deriving Repr, DecidableEq

/-- `tw.timers.Get(key)`: the recorded slot position of the key. -/
def lookupTimers (timers : List (ℕ × ℕ)) (key : ℕ) : Option ℕ :=
  (timers.find? (fun p => p.1 = key)).map (fun p => p.2)

/-- `tw.setTimerPosition(pos, task)` on the index: update the position when
the key is present, insert it otherwise. -/
def setTimerPos (timers : List (ℕ × ℕ)) (key pos : ℕ) : List (ℕ × ℕ) :=
  if (timers.find? (fun p => p.1 = key)).isSome then
    timers.map (fun p => if p.1 = key then (key, pos) else p)
  else
    timers ++ [(key, pos)]

/-- Mutate the fields of the entry the `timers` pointer designates: the entry
with the given key, wherever it sits in the slot lists. -/
def setEntryFields (slots : List (List Entry)) (key : ℕ) (f : Entry → Entry) :
    List (List Entry) :=
  slots.map (fun l => l.map (fun e => if e.key = key then f e else e))

/-- Dereference the `timers` pointer: the entry with the given key. -/
def findEntry (slots : List (List Entry)) (key : ℕ) : Option Entry :=
  slots.flatten.find? (fun e => e.key = key)

/-- Forget an entry's `circle` and `diff` fields (used to state that a fast
`moveTask` mutates nothing else). -/
def eraseCD (e : Entry) : Entry :=
  { e with circle := 0, diff := 0 }

/-- `tw.getPositionAndCircle(d)`:
`steps = int(d / interval)`, `pos = (tickedPos + steps) % numSlots`,
`circle = (steps - 1) / numSlots` — Go's truncating `int` division. -/
def getPositionAndCircle (w : Wheel) (d : ℤ) : ℤ × ℤ :=
  let steps := d.tdiv w.interval
  (((w.tickedPos : ℤ) + steps).tmod (w.numSlots : ℤ),
    (steps - 1).tdiv (w.numSlots : ℤ))

/-- `slot.PushBack(e)` on slot `pos`. -/
def pushBack (slots : List (List Entry)) (pos : ℕ) (e : Entry) :
    List (List Entry) :=
  slots.set pos (slots.getD pos [] ++ [e])

/-- `tw.moveTask(task)` for `task = (key, delay)`.  The `Bool` result records
whether the callback was fired immediately in a detached task
(`threading.GoSafe`). -/
def moveTask (w : Wheel) (key : ℕ) (d : ℤ) : Wheel × Bool :=
  match lookupTimers w.timers key with
  | none => (w, false)
  | some pos =>
    if d < w.interval then (w, true)
    else
      let pc := getPositionAndCircle w d
      if (pos : ℤ) ≤ pc.1 then
        let slots1 := setEntryFields w.slots key
          (fun e => { e with circle := pc.2, diff := pc.1 - pos })
        ({ w with slots := slots1 }, false)
      else if 0 < pc.2 then
        let slots1 := setEntryFields w.slots key
          (fun e => { e with circle := pc.2 - 1, diff := (w.numSlots : ℤ) + pc.1 - pos })
        ({ w with slots := slots1 }, false)
      else
        let value := ((findEntry w.slots key).map Entry.value).getD 0
        let newItem : Entry :=
          { key := key, value := value, delay := d,
            circle := 0, diff := 0, removed := false }
        let slots1 := setEntryFields w.slots key (fun e => { e with removed := true })
        ({ w with
            slots := pushBack slots1 pc.1.toNat newItem,
            timers := setTimerPos w.timers key pc.1.toNat }, false)

/-- `tw.setTask(task)`: clamp `delay` up to `interval`, then either update the
existing entry's value and `moveTask` it, or compute the position and append a
fresh entry.  The `Bool` mirrors `moveTask`'s immediate-fire flag (`setTask`
itself never fires). -/
def setTask (w : Wheel) (key value : ℕ) (d : ℤ) : Wheel × Bool :=
  let d := if d < w.interval then w.interval else d
  match lookupTimers w.timers key with
  | some _ =>
      let slots1 := setEntryFields w.slots key (fun e => { e with value := value })
      moveTask { w with slots := slots1 } key d
  | none =>
      let pc := getPositionAndCircle w d
      let task : Entry :=
        { key := key, value := value, delay := d,
          circle := pc.2, diff := 0, removed := false }
      ({ w with
          slots := pushBack w.slots pc.1.toNat task
          timers := setTimerPos w.timers key pc.1.toNat }, false)

end TW

/-! ## Expiring cache (`Cache` in core/collection)

`Cache.Take`/`Cache.doGet`/`Cache.Set` for a single caller: the single-flight
barrier then simply runs the miss closure.  The map `data` is an association
list with unique keys; cached values are naturals (Go stores `any`).  The
default `lruCache` is `emptyLru`, whose `add`/`remove` are no-ops, so only the
map is tracked.  The `fetch` argument enters as the one result the fetch call
would produce, and the embedding records whether the code path reached it. -/

namespace Cache

/-- Map lookup in `c.data`. -/
def lookup (data : List (String × ℕ)) (k : String) : Option ℕ :=
  (data.find? (fun p => p.1 = k)).map (fun p => p.2)

/-- Map store `c.data[key] = value` (overwrite or append). -/
def store (data : List (String × ℕ)) (k : String) (v : ℕ) :
    List (String × ℕ) :=
  if (data.find? (fun p => p.1 = k)).isSome then
    data.map (fun p => if p.1 = k then (k, v) else p)
  else
    data ++ [(k, v)]

/-- A `(value, error)` pair as Go returns it: a value, or an error (error
identities abstracted to naturals). -/
inductive Res where
  | ok (v : ℕ)
  | err (e : ℕ)
  deriving Repr, DecidableEq

/-- What a `Take` call returns and leaves behind: the `(value, error)` result,
the map afterwards, and whether `fetch` was invoked. -/
structure TakeOut where
  result : Res
  data : List (String × ℕ)
  fetched : Bool
  deriving Repr, DecidableEq

/-- `Cache.Take(key, fetch)`: `doGet` hit returns the cached value; on a miss
the barrier closure double-checks the map, calls `fetch`, and on success
stores through `c.Set(key, v)` (which writes the map and schedules the
timing-wheel expiry — only the map is modelled). -/
def take (data : List (String × ℕ)) (k : String) (fetch : Res) : TakeOut :=
  match lookup data k with
  | some v => ⟨.ok v, data, false⟩
  | none =>
    -- inside barrier.Do: double check, then fetch
    match lookup data k with
    | some v => ⟨.ok v, data, false⟩
    | none =>
      match fetch with
      | .err e => ⟨.err e, data, true⟩
      | .ok v => ⟨.ok v, store data k v, true⟩

end Cache

/-! ## Registry change fanout (core/discov/internal/registry.go)

`cluster.handleChanges(key, kvs)` diffs the freshly listed `kvs` against the
cached view `values[key]` and then notifies every listener: first `OnAdd` for
every added pair, then `OnDelete` for every removed pair.  Maps are modelled
as association lists with unique keys (Go map iteration order is
unspecified; the delivery-order property is independent of it). -/

namespace Registry

/-- A key/value pair (`KV` in the source). -/
structure KV where
  key : String
  val : String
  deriving Repr, DecidableEq

/-- Lookup in an association-list map. -/
def lookupKV (m : List KV) (k : String) : Option String :=
  (m.find? (fun p => p.key = k)).map KV.val

/-- Insert with overwrite (`m[kv.Key] = kv.Val`). -/
def insertKV (m : List KV) (kv : KV) : List KV :=
  if (m.find? (fun p => p.key = kv.key)).isSome then
    m.map (fun p => if p.key = kv.key then kv else p)
  else
    m ++ [kv]

/-- Build the map `m` from the listed slice (`for _, kv := range kvs`). -/
def buildMap (kvs : List KV) : List KV :=
  kvs.foldl insertKV []

/-- One callback delivery: `OnAdd kv` or `OnDelete kv` to a listener index. -/
inductive Event where
  | add (kv : KV)
  | del (kv : KV)
  deriving Repr, DecidableEq

/-- Whether an event is an `OnAdd` delivery. -/
def Event.isAdd : Event → Bool
  | .add _ => true
  | .del _ => false

/-- The `add`/`remove` slices and the new cached view computed by
`cluster.handleChanges`; `vals = none` models `c.values[key]` being absent. -/
def diffChanges (vals : Option (List KV)) (kvs : List KV) :
    List KV × List KV × List KV :=
  match vals with
  | none => (kvs, [], buildMap kvs)
  | some old =>
    let m := buildMap kvs
    let remove := old.filter (fun p =>
      match lookupKV m p.key with
      | none => true
      | some v => p.val ≠ v)
    let add := m.filter (fun p =>
      match lookupKV old p.key with
      | none => true
      | some v => p.val ≠ v)
    (add, remove, m)

/-- The sequence of listener callbacks one `handleChanges` batch issues, in
program order: `l.OnAdd(kv)` for every added kv and every listener, then
`l.OnDelete(kv)` likewise.  Deliveries are tagged with the listener index. -/
def notifications (vals : Option (List KV)) (kvs : List KV)
    (listeners : ℕ) : List (ℕ × Event) :=
  let d := diffChanges vals kvs
  d.1.flatMap (fun kv => (List.range listeners).map (fun l => (l, Event.add kv)))
    ++ d.2.1.flatMap (fun kv => (List.range listeners).map (fun l => (l, Event.del kv)))

end Registry

/-! ## Theorems -/

/-- `truncQ` agrees with the floor on nonnegative rationals. -/
theorem truncQ_eq_floor (q : ℚ) (h : 0 ≤ q) : truncQ q = ⌊q⌋ := by
  have hnum : 0 ≤ q.num := Rat.num_nonneg.mpr h
  have hden : (0 : ℤ) ≤ (q.den : ℤ) := Int.natCast_nonneg _
  rw [truncQ, Int.tdiv_eq_ediv hnum hden, Rat.floor_def]

/-- C1: over any history snapshot `(a, t)` with `t ≥ 0`, `accept` computes
`dropRatio = max(0, (t − 5 − 1.5·a)/(t + 1))`, admits whenever
`dropRatio ≤ 0` — in particular whenever `t ≤ 5 + 1.5·a` — and, when
`dropRatio > 0`, returns `ErrServiceUnavailable` exactly when the uniform
draw `r` satisfies `r < dropRatio`. -/
theorem breaker_accept_correct (a t : ℤ) (r : ℚ) (ht : 0 ≤ t) :
    Breaker.dropRatio a t
        = max 0 (((t : ℚ) - 5 - 3 / 2 * (a : ℚ)) / ((t : ℚ) + 1))
      ∧ (Breaker.dropRatio a t ≤ 0 → Breaker.accept a t r = .ok)
      ∧ ((t : ℚ) ≤ 5 + 3 / 2 * (a : ℚ) → Breaker.accept a t r = .ok)
      ∧ (0 < Breaker.dropRatio a t →
          (Breaker.accept a t r = .serviceUnavailable ↔ r < Breaker.dropRatio a t)) := by
  have hform : Breaker.dropRatio a t
      = max 0 (((t : ℚ) - 5 - 3 / 2 * (a : ℚ)) / ((t : ℚ) + 1)) := by
    unfold Breaker.dropRatio Breaker.kConst Breaker.protection
    push_cast
    ring_nf
  refine ⟨hform, ?_, ?_, ?_⟩
  · intro hle
    unfold Breaker.accept
    simp [hle]
  · intro hta
    have hnum : (t : ℚ) - 5 - 3 / 2 * (a : ℚ) ≤ 0 := by linarith
    have hden : (0 : ℚ) < (t : ℚ) + 1 := by
      have : (0 : ℚ) ≤ (t : ℚ) := by exact_mod_cast ht
      linarith
    have hdiv : ((t : ℚ) - 5 - 3 / 2 * (a : ℚ)) / ((t : ℚ) + 1) ≤ 0 :=
      div_nonpos_of_nonpos_of_nonneg hnum (le_of_lt hden)
    have hle : Breaker.dropRatio a t ≤ 0 := by
      rw [hform]
      exact max_le le_rfl hdiv
    unfold Breaker.accept
    simp [hle]
  · intro hpos
    unfold Breaker.accept
    have hne : ¬ Breaker.dropRatio a t ≤ 0 := not_le.mpr hpos
    by_cases hr : r < Breaker.dropRatio a t
    · simp [hne, hr]
    · simp [hne, hr]

/-- Closed instance of `breaker_accept_correct`: with `(a, t) = (4, 10)` the
history satisfies `t ≤ 5 + 1.5·a`, so the breaker admits. -/
theorem breaker_accept_correct_witness :
    Breaker.accept 4 10 (1 / 2) = .ok :=
  (breaker_accept_correct 4 10 (1 / 2) (by norm_num)).2.2.1 (by norm_num)

/-- C5: `Reduce` visits exactly `size − span` buckets starting at index
`(offset + span + 1) mod size`; when `ignoreCurrent` is set and `span = 0`
it visits exactly `size − 1` buckets, skipping the live bucket `offset`. -/
theorem rollingwindow_reduce_visits (rw : RollingWindow) (now : ℤ)
    (hoff : rw.offset < rw.size) :
    (¬(rw.span now = 0 ∧ rw.ignoreCurrent = true) →
        rw.reduceIndices now =
          (List.range (rw.size - rw.span now)).map
            (fun i => (rw.offset + rw.span now + 1 + i) % rw.size))
    ∧ (rw.span now = 0 → rw.ignoreCurrent = true →
        (rw.reduceIndices now).length = rw.size - 1
        ∧ rw.reduceIndices now =
            (List.range (rw.size - 1)).map (fun i => (rw.offset + 1 + i) % rw.size)
        ∧ rw.offset ∉ rw.reduceIndices now) := by
  have hmod : ∀ x i : ℕ, (x % rw.size + i) % rw.size = (x + i) % rw.size := by
    intro x i
    exact Nat.mod_add_mod x rw.size i
  constructor
  · intro hnot
    unfold RollingWindow.reduceIndices
    have hcond : ¬(rw.span now = 0 ∧ rw.ignoreCurrent) := by
      intro ⟨h1, h2⟩
      exact hnot ⟨h1, h2⟩
    simp only [hcond, if_false]
    by_cases hdiff : 0 < rw.size - rw.span now
    · simp only [hdiff, if_true]
      exact List.map_congr_left fun i _ => hmod (rw.offset + rw.span now + 1) i
    · have hz : rw.size - rw.span now = 0 := Nat.eq_zero_of_not_pos hdiff
      simp [hdiff, hz]
  · intro hspan hic
    have hind : rw.reduceIndices now =
        (List.range (rw.size - 1)).map (fun i => (rw.offset + 1 + i) % rw.size) := by
      unfold RollingWindow.reduceIndices
      simp only [hspan, hic, and_self, if_true]
      by_cases hdiff : 0 < rw.size - 1
      · simp only [hdiff, if_true]
        refine List.map_congr_left fun i _ => ?_
        have h := hmod (rw.offset + 0 + 1) i
        simp only [Nat.add_zero] at h ⊢
        exact h
      · have hz : rw.size - 1 = 0 := Nat.eq_zero_of_not_pos hdiff
        simp [hdiff, hz]
    refine ⟨by rw [hind]; simp, hind, ?_⟩
    rw [hind]
    intro hmem
    obtain ⟨i, hi, heq⟩ := List.mem_map.mp hmem
    have hilt : i < rw.size - 1 := List.mem_range.mp hi
    have hoffmod : rw.offset % rw.size = rw.offset := Nat.mod_eq_of_lt hoff
    have hcong : rw.offset + (1 + i) ≡ rw.offset [MOD rw.size] := by
      have h1 : (rw.offset + 1 + i) % rw.size = rw.offset % rw.size := by
        rw [heq, hoffmod]
      calc rw.offset + (1 + i) ≡ (rw.offset + 1 + i) % rw.size [MOD rw.size] := by
            rw [← Nat.add_assoc]
            exact (Nat.mod_modEq _ _).symm
        _ = rw.offset % rw.size := h1
        _ ≡ rw.offset [MOD rw.size] := Nat.mod_modEq _ _
    have hdvd : rw.size ∣ (rw.offset + (1 + i)) - rw.offset :=
      (Nat.modEq_iff_dvd' (Nat.le_add_right _ _)).mp hcong.symm
    rw [Nat.add_sub_cancel_left] at hdvd
    have hlt : 1 + i < rw.size := by omega
    have hle : rw.size ≤ 1 + i := Nat.le_of_dvd (by omega) hdvd
    omega

/-- Closed instance of `rollingwindow_reduce_visits`: a fresh 3-bucket window
with `ignoreCurrent` visits buckets 1 and 2, skipping the live bucket 0. -/
theorem rollingwindow_reduce_visits_witness :
    (RollingWindow.new 3 100 true 0).reduceIndices 0 = [1, 2]
    ∧ (0 : ℕ) ∉ (RollingWindow.new 3 100 true 0).reduceIndices 0 := by
  have h := rollingwindow_reduce_visits (RollingWindow.new 3 100 true 0) 0 (by decide)
  refine ⟨?_, (h.2 (by decide) (by decide)).2.2⟩
  have h2 := (h.2 (by decide) (by decide)).2.1
  rw [h2]
  decide

/-- `truncQ` on integer values. -/
theorem truncQ_intCast (n : ℤ) : truncQ ((n : ℤ) : ℚ) = n := by
  simp [truncQ]

/-- `truncQ` of a value ≥ 1 is ≥ 1. -/
theorem one_le_truncQ (q : ℚ) (h : 1 ≤ q) : 1 ≤ truncQ q := by
  rw [truncQ_eq_floor q (le_trans zero_le_one h)]
  exact Int.le_floor.mpr (by exact_mod_cast h)

/-- `stillHot` never touches `flying`. -/
theorem stillHot_snd_flying (s : Shedder.State) (now : ℤ) :
    (Shedder.stillHot s now).2.flying = s.flying := by
  unfold Shedder.stillHot
  by_cases hdr : s.droppedRecently
  · by_cases hot : s.overloadTime = 0
    · simp [hdr, hot]
    · by_cases hlt : now - s.overloadTime < Shedder.coolOffDuration
      · simp [hdr, hot, hlt]
      · simp [hdr, hot, hlt]
  · simp [hdr]

/-- The boolean `stillHot` returns is `stillHotVal`. -/
theorem stillHot_fst (s : Shedder.State) (now : ℤ) :
    (Shedder.stillHot s now).1 = Shedder.stillHotVal s now := by
  unfold Shedder.stillHot Shedder.stillHotVal
  by_cases hdr : s.droppedRecently
  · by_cases hot : s.overloadTime = 0
    · simp [hdr, hot]
    · by_cases hlt : now - s.overloadTime < Shedder.coolOffDuration
      · simp [hdr, hot, hlt]
      · simp [hdr, hot, hlt]
  · simp [hdr]

/-- When `stillHot` answers `true` it leaves the state untouched. -/
theorem stillHot_true_snd (s : Shedder.State) (now : ℤ)
    (h : (Shedder.stillHot s now).1 = true) :
    (Shedder.stillHot s now).2 = s := by
  unfold Shedder.stillHot at h ⊢
  by_cases hdr : s.droppedRecently
  · by_cases hot : s.overloadTime = 0
    · simp [hdr, hot] at h
    · by_cases hlt : now - s.overloadTime < Shedder.coolOffDuration
      · simp [hdr, hot, hlt]
      · simp [hdr, hot, hlt] at h
  · simp [hdr] at h

/-- `highThru` only reads `windows`, `flying`, `avgFlying` and the two bucket
lists, so it ignores `overloadTime` and `droppedRecently`. -/
theorem highThru_mk (w f : ℤ) (af : ℚ) (ot ot' : ℤ) (dr dr' : Bool)
    (pb rb : List Bucket) :
    Shedder.highThru ⟨w, f, af, ot, dr, pb, rb⟩
      = Shedder.highThru ⟨w, f, af, ot', dr', pb, rb⟩ := rfl

/-- `shouldDrop` decides `(systemOverloaded ∨ stillHot) ∧ highThru`, all three
evaluated on the incoming state, and never touches `flying`. -/
theorem shouldDrop_spec (cpuOver : Bool) (s : Shedder.State) (now : ℤ) :
    (Shedder.shouldDrop cpuOver s now).1
        = ((cpuOver || Shedder.stillHotVal s now) && Shedder.highThru s)
    ∧ (Shedder.shouldDrop cpuOver s now).2.flying = s.flying := by
  obtain ⟨w, f, af, ot, dr, pb, rb⟩ := s
  cases cpuOver
  · -- systemOverloaded() is false; `stillHot` decides
    have hmut : Shedder.systemOverloaded false ⟨w, f, af, ot, dr, pb, rb⟩ now
        = (false, ⟨w, f, af, ot, dr, pb, rb⟩) := rfl
    unfold Shedder.shouldDrop
    rw [hmut]
    simp only [Bool.false_or, Bool.false_eq_true, if_false]
    cases hhot : (Shedder.stillHot ⟨w, f, af, ot, dr, pb, rb⟩ now).1
    · rw [← stillHot_fst, hhot]
      simp [stillHot_snd_flying]
    · have hid := stillHot_true_snd ⟨w, f, af, ot, dr, pb, rb⟩ now hhot
      rw [← stillHot_fst, hhot, hid]
      cases hht : Shedder.highThru ⟨w, f, af, ot, dr, pb, rb⟩
      · simp [hht, hid, stillHot_snd_flying]
      · simp [hht, hid, stillHot_snd_flying]
  · -- systemOverloaded() is true; it records `overloadTime = now`
    have hmut : Shedder.systemOverloaded true ⟨w, f, af, ot, dr, pb, rb⟩ now
        = (true, ⟨w, f, af, now, dr, pb, rb⟩) := rfl
    unfold Shedder.shouldDrop
    rw [hmut]
    simp only [Bool.true_or, if_true]
    rw [← highThru_mk w f af now ot dr dr pb rb]
    cases hht : Shedder.highThru ⟨w, f, af, now, dr, pb, rb⟩
    · simp [hht, highThru_mk w f af ot now dr dr pb rb]
    · simp [hht, highThru_mk w f af ot now dr dr pb rb, stillHot_snd_flying]

/-- C2 (amended): `Allow` drops — returns the overload error with no promise
and sets `droppedRecently` — iff `(systemOverloaded ∨ stillHot) ∧ highThru`
holds at the call, where `highThru` compares the int64 truncation of
`avgFlying` (and `flying`) against `maxFlight`; otherwise it increments
`flying` and returns a promise bound to the current time. -/
theorem shedder_allow_drop_iff (cpuOver : Bool) (s : Shedder.State) (now : ℤ) :
    ((Shedder.allow cpuOver s now).1 = .overloaded
        ∧ (Shedder.allow cpuOver s now).2.droppedRecently = true
      ↔ (cpuOver = true ∨ Shedder.stillHotVal s now = true)
        ∧ Shedder.highThru s = true)
    ∧ ((Shedder.allow cpuOver s now).1 ≠ .overloaded →
        (Shedder.allow cpuOver s now).1 = .allowed now
        ∧ (Shedder.allow cpuOver s now).2.flying = s.flying + 1) := by
  have h := shouldDrop_spec cpuOver s now
  cases hdec : (Shedder.shouldDrop cpuOver s now).1
  · have hA1 : (Shedder.allow cpuOver s now).1 = .allowed now := by
      simp only [Shedder.allow, hdec]
      simp
    have hA2 : (Shedder.allow cpuOver s now).2.flying = s.flying + 1 := by
      simp only [Shedder.allow, hdec]
      simp [h.2]
    have hRHS : ¬((cpuOver = true ∨ Shedder.stillHotVal s now = true)
        ∧ Shedder.highThru s = true) := by
      rw [hdec] at h
      intro hc
      have hb : ((cpuOver || Shedder.stillHotVal s now) && Shedder.highThru s) = true := by
        simp only [Bool.and_eq_true, Bool.or_eq_true]
        exact ⟨hc.1, hc.2⟩
      rw [← h.1] at hb
      exact Bool.false_ne_true hb
    refine ⟨⟨?_, ?_⟩, fun _ => ⟨hA1, hA2⟩⟩
    · intro hl
      rw [hA1] at hl
      exact absurd hl.1 (by simp)
    · intro hr
      exact absurd hr hRHS
  · have hA1 : (Shedder.allow cpuOver s now).1 = .overloaded := by
      simp only [Shedder.allow, hdec]
      simp
    have hA2 : (Shedder.allow cpuOver s now).2.droppedRecently = true := by
      simp only [Shedder.allow, hdec]
      simp
    have hRHS : (cpuOver = true ∨ Shedder.stillHotVal s now = true)
        ∧ Shedder.highThru s = true := by
      rw [hdec] at h
      have hb := h.1.symm
      simp only [Bool.and_eq_true, Bool.or_eq_true] at hb
      exact hb
    exact ⟨⟨fun _ => hRHS, fun _ => ⟨hA1, hA2⟩⟩, fun hne => absurd hA1 hne⟩

/-- Closed instance of `shedder_allow_drop_iff`: an idle shedder
(`cpu below threshold`, nothing dropped recently) admits and bumps
`flying`. -/
theorem shedder_allow_drop_iff_witness :
    (Shedder.allow false ⟨1, 0, 0, 0, false, [], []⟩ 5).1
        = .allowed 5
    ∧ (Shedder.allow false ⟨1, 0, 0, 0, false, [], []⟩ 5).2.flying = 1 := by
  have h := (shedder_allow_drop_iff false ⟨1, 0, 0, 0, false, [], []⟩ 5).2
  have hne : (Shedder.allow false ⟨1, 0, 0, 0, false, [], []⟩ 5).1 ≠ .overloaded := by
    decide
  exact ⟨(h hne).1, (h hne).2⟩

/-- `maxFlight` of the idle shedder of the C2 instances: empty counters and
one bucket per second give a ceiling of 1. -/
theorem maxFlight_idle : Shedder.maxFlight 1 [] [] = 1 := by
  have h1 : Shedder.maxPass [] = 1 := by
    unfold Shedder.maxPass
    rw [List.foldl_nil, show (1 : ℚ) = ((1 : ℤ) : ℚ) by norm_num, truncQ_intCast]
  unfold Shedder.maxFlight
  rw [h1, show Shedder.minRt [] = 1000 from rfl]
  rw [show max 1 (((1 * 1 : ℤ) : ℚ) * ((1000 : ℚ) / 1000)) = ((1 : ℤ) : ℚ) by norm_num]
  exact truncQ_intCast 1

/-- C2 counterexample: with `maxFlight = 1`, `avgFlying = 3/2` and
`flying = 2` under CPU overload, the claim's condition
`(systemOverloaded ∨ stillHot) ∧ (avgFlying > maxFlight ∧ flying > maxFlight)`
holds, yet `Allow` admits: the code compares the int64-truncated `avgFlying`
(`int64(3/2) = 1`), which is not above `maxFlight = 1`. -/
theorem shedder_allow_claim_counterexample :
    ((true = true ∨ Shedder.stillHotVal ⟨1, 2, 3 / 2, 0, false, [], []⟩ 0 = true)
      ∧ Shedder.highThruSpec ⟨1, 2, 3 / 2, 0, false, [], []⟩ = true)
    ∧ (Shedder.allow true ⟨1, 2, 3 / 2, 0, false, [], []⟩ 0).1 = .allowed 0 := by
  have htr : truncQ (3 / 2 : ℚ) = 1 := by
    rw [truncQ_eq_floor (3 / 2 : ℚ) (by norm_num)]
    exact Int.floor_eq_iff.mpr (by norm_num)
  have hth : Shedder.highThru ⟨1, 2, 3 / 2, 0, false, [], []⟩ = false := by
    unfold Shedder.highThru
    simp only [maxFlight_idle, htr]
    decide
  have hspec : Shedder.highThruSpec ⟨1, 2, 3 / 2, 0, false, [], []⟩ = true := by
    unfold Shedder.highThruSpec
    simp only [maxFlight_idle]
    norm_num
  refine ⟨⟨Or.inl rfl, hspec⟩, ?_⟩
  have hmut : Shedder.systemOverloaded true ⟨1, 2, 3 / 2, 0, false, [], []⟩ 0
      = (true, ⟨1, 2, 3 / 2, 0, false, [], []⟩) := rfl
  unfold Shedder.allow Shedder.shouldDrop
  rw [hmut]
  simp [hth]

/-- C3 helper: the `maxPass` fold is the running maximum of the bucket sums. -/
theorem maxPass_eq_amended (bs : List Bucket) :
    Shedder.maxPass bs = Shedder.maxPassAmended bs := by
  unfold Shedder.maxPass Shedder.maxPassAmended
  congr 1
  rw [List.foldl_map]
  have hfun : (fun (r : ℚ) (b : Bucket) => if b.sum > r then b.sum else r)
      = fun r b => max r b.sum := by
    funext r b
    by_cases h : b.sum > r
    · rw [if_pos h, max_eq_right h.le]
    · rw [if_neg h, max_eq_left (not_lt.mp h)]
  rw [hfun]

/-- C3 helper: the `minRt` fold is the running minimum of the rounded
per-bucket averages over the nonempty buckets. -/
theorem minRt_eq_amended (bs : List Bucket) :
    Shedder.minRt bs = Shedder.minRtAmended bs := by
  unfold Shedder.minRt Shedder.minRtAmended
  suffices h : ∀ init : ℚ,
      bs.foldl
        (fun result b =>
          if b.count ≤ 0 then result
          else
            let avg : ℚ := ((roundQ (b.sum / (b.count : ℚ)) : ℤ) : ℚ)
            if avg < result then avg else result) init
      = ((bs.filter (fun b => 0 < b.count)).map
          (fun b => ((roundQ (b.sum / (b.count : ℚ)) : ℤ) : ℚ))).foldl min init from
    h Shedder.defaultMinRt
  induction bs with
  | nil => intro init; rfl
  | cons b t ih =>
    intro init
    simp only [List.foldl_cons, List.filter_cons]
    by_cases hc : b.count ≤ 0
    · rw [if_pos hc, decide_eq_false (not_lt.mpr hc), if_neg Bool.false_ne_true]
      exact ih init
    · have h0 : (0 : ℤ) < b.count := lt_of_not_le hc
      rw [if_neg hc, decide_eq_true h0, if_pos rfl]
      simp only [List.map_cons, List.foldl_cons]
      have hstep :
          (if ((roundQ (b.sum / (b.count : ℚ)) : ℤ) : ℚ) < init
            then (((roundQ (b.sum / (b.count : ℚ)) : ℤ) : ℚ) : ℚ) else init)
          = min init ((roundQ (b.sum / (b.count : ℚ)) : ℤ) : ℚ) := by
        by_cases hlt : ((roundQ (b.sum / (b.count : ℚ)) : ℤ) : ℚ) < init
        · rw [if_pos hlt, min_eq_right hlt.le]
        · rw [if_neg hlt, min_eq_left (not_lt.mp hlt)]
      rw [hstep]
      exact ih _

/-- C3 counterexample: with an empty `passCounter` bucket, one `rtCounter`
bucket averaging 1000 ms and `windows = 2`, the code's ceiling is 2, while
the claim's formula — `maxPass` as the largest bucket *count* (here 0) —
yields `max(1, 0) = 1`. -/
theorem shedder_maxflight_claim_counterexample :
    Shedder.maxFlight 2 [⟨0, 0⟩] [⟨1000, 1⟩] = 2
    ∧ Shedder.maxFlightSpec 2 [⟨0, 0⟩] [⟨1000, 1⟩] = 1
    ∧ Shedder.maxPassSpec [⟨0, 0⟩] = 0 := by
  have hround : roundQ ((1000 : ℚ) / ((1 : ℤ) : ℚ)) = 1000 := by
    rw [show ((1000 : ℚ) / ((1 : ℤ) : ℚ)) = 1000 by norm_num]
    unfold roundQ
    rw [if_pos (by norm_num)]
    exact Int.floor_eq_iff.mpr (by norm_num)
  have hminrt : Shedder.minRt [⟨1000, 1⟩] = 1000 := by
    unfold Shedder.minRt
    rw [List.foldl_cons, List.foldl_nil, if_neg (by norm_num)]
    simp only [hround]
    rw [if_neg (by norm_num [Shedder.defaultMinRt])]
    rfl
  have hmaxpass : Shedder.maxPass [⟨0, 0⟩] = 1 := by
    unfold Shedder.maxPass
    rw [List.foldl_cons, List.foldl_nil, if_neg (by norm_num)]
    rw [show (1 : ℚ) = ((1 : ℤ) : ℚ) by norm_num, truncQ_intCast]
  refine ⟨?_, ?_, by decide⟩
  · unfold Shedder.maxFlight
    rw [hmaxpass, hminrt]
    rw [show max 1 (((1 * 2 : ℤ) : ℚ) * ((1000 : ℚ) / 1000)) = ((2 : ℤ) : ℚ) by norm_num]
    exact truncQ_intCast 2
  · unfold Shedder.maxFlightSpec Shedder.minRtSpec Shedder.maxPassSpec
    norm_num [Shedder.defaultMinRt]

/-- C3 (amended): the ceiling is
`maxFlight = trunc(max(1, maxPass · windows · (minRt/1000)))` — hence always
≥ 1 — where `maxPass` is the truncation of `max(1, largest bucket Sum)` of
`passCounter` and `minRt` is the minimum of the rounded per-bucket averages
`round(Sum/Count)` over the nonempty `rtCounter` buckets, defaulting to
1000 ms. -/
theorem shedder_maxflight_amended (w : ℤ) (p r : List Bucket) :
    Shedder.maxFlight w p r
      = truncQ (max 1 (((Shedder.maxPassAmended p * w : ℤ) : ℚ)
          * (Shedder.minRtAmended r / 1000)))
    ∧ 1 ≤ Shedder.maxFlight w p r := by
  constructor
  · unfold Shedder.maxFlight
    rw [maxPass_eq_amended, minRt_eq_amended]
  · unfold Shedder.maxFlight
    exact one_le_truncQ _ (le_max_left _ _)

/-- C4 counterexample: with `lag = 8, inflight = 0` against
`lag = 1, inflight = 1` (both picked fresh, so the stale-probe exception is
off), the code returns the second conn — its truncated load
`⌊√2⌋·2 = 2` is below the first's `⌊√9⌋·1 = 3` — although its
ceiling load `⌈√2⌉·2 = 4` is strictly *greater* than the first's
`⌈√9⌉·1 = 3`: the claim's `⌈√(lag+1)⌉` misstates the code's truncating
`int64(math.Sqrt(...))` conversion. -/
theorem p2c_choose_claim_counterexample :
    (P2C.choose ⟨8, 0, 0⟩ ⟨1, 1, 0⟩ 0 true).idx = 1
    ∧ P2C.loadSpec ⟨8, 0, 0⟩ < P2C.loadSpec ⟨1, 1, 0⟩
    ∧ ¬(P2C.forcePick < (0 : ℤ) - (⟨1, 1, 0⟩ : P2C.SubConn).pick) := by
  have hla : P2C.load ⟨8, 0, 0⟩ = 3 := by norm_num [P2C.load]
  have hlb : P2C.load ⟨1, 1, 0⟩ = 2 := by norm_num [P2C.load]
  refine ⟨?_, ?_, by norm_num [P2C.forcePick]⟩
  · unfold P2C.choose
    rw [if_pos (show P2C.load ⟨8, 0, 0⟩ > P2C.load ⟨1, 1, 0⟩ by rw [hla, hlb]; norm_num),
      if_neg (show ¬(P2C.forcePick < (0 : ℤ) - (⟨8, 0, 0⟩ : P2C.SubConn).pick
        ∧ (true = true)) by norm_num [P2C.forcePick])]
  · norm_num [P2C.loadSpec, P2C.ceilSqrt]

/-- C4 (amended): `choose` computes `load = ⌊√(lag+1)⌋ · (inflight+1)`
(truncating conversion; a zero product is replaced by the penalty) and
returns the lower-loaded conn, except that when the other conn's `pick`
stamp is over 1 s old and the CAS to `now` succeeds, that stale conn is
returned instead; the returned conn's `pick` stamp is set to `now` and the
other conn is left unchanged. -/
theorem p2c_choose_amended (a b : P2C.SubConn) (start : ℤ) (casOk : Bool) :
    P2C.load (P2C.loConn a b) ≤ P2C.load (P2C.hiConn a b)
    ∧ ((P2C.forcePick < start - (P2C.hiConn a b).pick ∧ casOk = true) →
        (if (P2C.choose a b start casOk).idx = 0 then a else b) = P2C.hiConn a b)
    ∧ (¬(P2C.forcePick < start - (P2C.hiConn a b).pick ∧ casOk = true) →
        (if (P2C.choose a b start casOk).idx = 0 then a else b) = P2C.loConn a b)
    ∧ (if (P2C.choose a b start casOk).idx = 0
        then (P2C.choose a b start casOk).a
        else (P2C.choose a b start casOk).b)
      = { (if (P2C.choose a b start casOk).idx = 0 then a else b) with pick := start }
    ∧ (if (P2C.choose a b start casOk).idx = 0
        then (P2C.choose a b start casOk).b
        else (P2C.choose a b start casOk).a)
      = (if (P2C.choose a b start casOk).idx = 0 then b else a) := by
  by_cases h1 : P2C.load a > P2C.load b
  · have hhi : P2C.hiConn a b = a := by unfold P2C.hiConn; rw [if_pos h1]
    have hlo : P2C.loConn a b = b := by unfold P2C.loConn; rw [if_pos h1]
    by_cases h2 : P2C.forcePick < start - a.pick ∧ casOk = true
    · have hc : P2C.choose a b start casOk = ⟨0, { a with pick := start }, b⟩ := by
        unfold P2C.choose
        rw [if_pos h1, if_pos h2]
      rw [hc, hhi, hlo]
      exact ⟨le_of_lt h1, fun _ => rfl, fun hne => absurd h2 hne, rfl, rfl⟩
    · have hc : P2C.choose a b start casOk = ⟨1, a, { b with pick := start }⟩ := by
        unfold P2C.choose
        rw [if_pos h1, if_neg h2]
      rw [hc, hhi, hlo]
      exact ⟨le_of_lt h1, fun hyes => absurd hyes h2, fun _ => rfl, rfl, rfl⟩
  · have hhi : P2C.hiConn a b = b := by unfold P2C.hiConn; rw [if_neg h1]
    have hlo : P2C.loConn a b = a := by unfold P2C.loConn; rw [if_neg h1]
    by_cases h2 : P2C.forcePick < start - b.pick ∧ casOk = true
    · have hc : P2C.choose a b start casOk = ⟨1, a, { b with pick := start }⟩ := by
        unfold P2C.choose
        rw [if_neg h1, if_pos h2]
      rw [hc, hhi, hlo]
      exact ⟨not_lt.mp h1, fun _ => rfl, fun hne => absurd h2 hne, rfl, rfl⟩
    · have hc : P2C.choose a b start casOk = ⟨0, { a with pick := start }, b⟩ := by
        unfold P2C.choose
        rw [if_neg h1, if_neg h2]
      rw [hc, hhi, hlo]
      exact ⟨not_lt.mp h1, fun hyes => absurd hyes h2, fun _ => rfl, rfl, rfl⟩

/-- Closed instance of `p2c_choose_amended`: with fresh picks the
lower-loaded conn is returned. -/
theorem p2c_choose_amended_witness :
    (if (P2C.choose ⟨0, 0, 0⟩ ⟨3, 0, 0⟩ 0 true).idx = 0
      then (⟨0, 0, 0⟩ : P2C.SubConn) else ⟨3, 0, 0⟩)
      = P2C.loConn ⟨0, 0, 0⟩ ⟨3, 0, 0⟩ := by
  have h0 : P2C.load ⟨0, 0, 0⟩ = 1 := by norm_num [P2C.load]
  have h3 : P2C.load ⟨3, 0, 0⟩ = 2 := by norm_num [P2C.load]
  have hhi : P2C.hiConn ⟨0, 0, 0⟩ ⟨3, 0, 0⟩ = ⟨3, 0, 0⟩ := by
    unfold P2C.hiConn
    rw [if_neg (by rw [h0, h3]; norm_num)]
  refine (p2c_choose_amended ⟨0, 0, 0⟩ ⟨3, 0, 0⟩ 0 true).2.2.1 ?_
  rw [hhi]
  norm_num [P2C.forcePick]

/-- Storing `v` under `k` really makes `k` look up to `v`. -/
theorem cache_lookup_store (data : List (String × ℕ)) (k : String) (v : ℕ) :
    Cache.lookup (Cache.store data k v) k = some v := by
  induction data with
  | nil => simp [Cache.store, Cache.lookup]
  | cons p t ih =>
    by_cases hp : p.1 = k
    · have hfind : List.find? (fun q => q.1 = k) (p :: t) = some p :=
        List.find?_cons_of_pos t (by simp [hp])
      have hstore : Cache.store (p :: t) k v
          = (k, v) :: t.map (fun q => if q.1 = k then (k, v) else q) := by
        unfold Cache.store
        rw [if_pos (by rw [hfind]; rfl), List.map_cons, if_pos hp]
      rw [hstore]
      unfold Cache.lookup
      rw [List.find?_cons_of_pos _ (by simp)]
      rfl
    · have hstep : Cache.store (p :: t) k v = p :: Cache.store t k v := by
        unfold Cache.store
        rw [List.find?_cons_of_neg t (by simp [hp])]
        by_cases ht : (List.find? (fun q => q.1 = k) t).isSome
        · rw [if_pos ht, if_pos ht, List.map_cons, if_neg hp]
        · rw [if_neg ht, if_neg ht, List.cons_append]
      rw [hstep]
      unfold Cache.lookup at ih ⊢
      rw [List.find?_cons_of_neg _ (by simp [hp])]
      exact ih

/-- C8: `Take(k, fetch)` returns the cached value without invoking `fetch`
on a hit; on a miss a failing `fetch` propagates its error and leaves the
map unchanged, and a successful `fetch` stores the fetched value under `k`
and returns it. -/
theorem cache_take_correct (data : List (String × ℕ)) (k : String)
    (fetch : Cache.Res) :
    (∀ v, Cache.lookup data k = some v →
        Cache.take data k fetch = ⟨.ok v, data, false⟩)
    ∧ (Cache.lookup data k = none →
        (∀ e, fetch = .err e → Cache.take data k fetch = ⟨.err e, data, true⟩)
        ∧ (∀ v, fetch = .ok v →
            Cache.take data k fetch = ⟨.ok v, Cache.store data k v, true⟩
            ∧ Cache.lookup (Cache.take data k fetch).data k = some v)) := by
  constructor
  · intro v hv
    unfold Cache.take
    rw [hv]
  · intro hnone
    constructor
    · intro e he
      unfold Cache.take
      rw [hnone, he]
    · intro v hv
      have htake : Cache.take data k fetch = ⟨.ok v, Cache.store data k v, true⟩ := by
        unfold Cache.take
        rw [hnone, hv]
      exact ⟨htake, by rw [htake]; exact cache_lookup_store data k v⟩

/-- Closed instance of `cache_take_correct`: hit, failing miss and storing
miss on a one-entry map. -/
theorem cache_take_correct_witness :
    Cache.take [("a", 5)] "a" (.ok 9) = ⟨.ok 5, [("a", 5)], false⟩
    ∧ Cache.take [("a", 5)] "b" (.err 3) = ⟨.err 3, [("a", 5)], true⟩
    ∧ Cache.take [("a", 5)] "b" (.ok 9)
        = ⟨.ok 9, Cache.store [("a", 5)] "b" 9, true⟩ := by
  have h1 := (cache_take_correct [("a", 5)] "a" (.ok 9)).1 5 (by decide)
  have h2 := ((cache_take_correct [("a", 5)] "b" (.err 3)).2 (by decide)).1 3 rfl
  have h3 := (((cache_take_correct [("a", 5)] "b" (.ok 9)).2 (by decide)).2 9 rfl).1
  exact ⟨h1, h2, h3⟩

/-- Structure of the C9 batches: elements of the add part are `OnAdd`
deliveries and elements of the delete part are `OnDelete` deliveries, and the
batch is their concatenation, adds first. -/
theorem registry_adds_then_dels (A B : List (ℕ × Registry.Event))
    (hA : ∀ x ∈ A, x.2.isAdd = true) (hB : ∀ x ∈ B, x.2.isAdd = false)
    (i j li lj : ℕ) (kv1 kv2 : Registry.KV)
    (hdel : (A ++ B)[i]? = some (li, .del kv1))
    (hadd : (A ++ B)[j]? = some (lj, .add kv2)) : j < i := by
  have hiA : ¬ i < A.length := by
    intro hi
    rw [List.getElem?_append, if_pos hi] at hdel
    have hmem : (li, Registry.Event.del kv1) ∈ A := List.getElem?_mem hdel
    have := hA _ hmem
    simp [Registry.Event.isAdd] at this
  have hjA : j < A.length := by
    by_contra hj
    push_neg at hj
    rw [List.getElem?_append_right hj] at hadd
    have hmem : (lj, Registry.Event.add kv2) ∈ B := List.getElem?_mem hadd
    have := hB _ hmem
    simp [Registry.Event.isAdd] at this
  omega

/-- C9: within one `handleChanges` notification batch, every `OnAdd`
delivery precedes every `OnDelete` delivery: if position `i` holds an
`OnDelete` and position `j` holds an `OnAdd`, then `j < i`. -/
theorem registry_batch_adds_before_deletes (vals : Option (List Registry.KV))
    (kvs : List Registry.KV) (n i j li lj : ℕ) (kv1 kv2 : Registry.KV)
    (hdel : (Registry.notifications vals kvs n)[i]? = some (li, .del kv1))
    (hadd : (Registry.notifications vals kvs n)[j]? = some (lj, .add kv2)) :
    j < i := by
  unfold Registry.notifications at hdel hadd
  refine registry_adds_then_dels _ _ ?_ ?_ i j li lj kv1 kv2 hdel hadd
  · intro x hx
    obtain ⟨kv, _, hx2⟩ := List.mem_flatMap.mp hx
    obtain ⟨l, _, rfl⟩ := List.mem_map.mp hx2
    rfl
  · intro x hx
    obtain ⟨kv, _, hx2⟩ := List.mem_flatMap.mp hx
    obtain ⟨l, _, rfl⟩ := List.mem_map.mp hx2
    rfl

/-- Closed instance of `registry_batch_adds_before_deletes`: a changed value
produces its `OnAdd` (position 0) before its `OnDelete` (position 1). -/
theorem registry_batch_adds_before_deletes_witness : (0 : ℕ) < 1 :=
  registry_batch_adds_before_deletes (some [⟨"x", "1"⟩]) [⟨"x", "2"⟩] 1 1 0 0 0
    ⟨"x", "1"⟩ ⟨"x", "2"⟩ (by decide) (by decide)

/-- A field update that `eraseCD` cancels leaves the `eraseCD`-image of the
slot lists unchanged. -/
theorem tw_eraseCD_setEntryFields (slots : List (List TW.Entry)) (key : ℕ)
    (f : TW.Entry → TW.Entry) (hf : ∀ e, TW.eraseCD (f e) = TW.eraseCD e) :
    (TW.setEntryFields slots key f).map (List.map TW.eraseCD)
      = slots.map (List.map TW.eraseCD) := by
  unfold TW.setEntryFields
  rw [List.map_map]
  refine List.map_congr_left fun l _ => ?_
  show (l.map fun e => if e.key = key then f e else e).map TW.eraseCD = l.map TW.eraseCD
  rw [List.map_map]
  refine List.map_congr_left fun e _ => ?_
  show TW.eraseCD (if e.key = key then f e else e) = TW.eraseCD e
  by_cases he : e.key = key
  · rw [if_pos he, hf]
  · rw [if_neg he]

/-- `setEntryFields` never touches the timers index or the slot shape; its
image of any entry stays in place. -/
theorem tw_mem_flatten_setEntryFields (slots : List (List TW.Entry)) (key : ℕ)
    (f : TW.Entry → TW.Entry) (e : TW.Entry) (he : e ∈ slots.flatten) :
    (if e.key = key then f e else e) ∈ (TW.setEntryFields slots key f).flatten := by
  obtain ⟨l, hl, hel⟩ := List.mem_flatten.mp he
  refine List.mem_flatten.mpr
    ⟨l.map (fun x => if x.key = key then f x else x), ?_, ?_⟩
  · exact List.mem_map_of_mem _ hl
  · exact List.mem_map_of_mem _ hel

/-- `pushBack` keeps every element of every slot. -/
theorem tw_mem_flatten_pushBack (slots : List (List TW.Entry)) (p : ℕ)
    (v : TW.Entry) (x : TW.Entry) (hx : x ∈ slots.flatten) :
    x ∈ (TW.pushBack slots p v).flatten := by
  induction slots generalizing p with
  | nil => simp at hx
  | cons l t ih =>
    cases p with
    | zero =>
      have : TW.pushBack (l :: t) 0 v = (l ++ [v]) :: t := by
        unfold TW.pushBack
        rfl
      rw [this]
      rw [List.flatten_cons] at hx ⊢
      rcases List.mem_append.mp hx with hxl | hxt
      · exact List.mem_append.mpr (Or.inl (List.mem_append.mpr (Or.inl hxl)))
      · exact List.mem_append.mpr (Or.inr hxt)
    | succ q =>
      have : TW.pushBack (l :: t) (q + 1) v = l :: TW.pushBack t q v := by
        unfold TW.pushBack
        rfl
      rw [this]
      rw [List.flatten_cons] at hx ⊢
      rcases List.mem_append.mp hx with hxl | hxt
      · exact List.mem_append.mpr (Or.inl hxl)
      · exact List.mem_append.mpr (Or.inr (ih q hxt))

/-- After `setTimerPosition`, the timers index maps the key to the new
position. -/
theorem tw_lookup_setTimerPos (timers : List (ℕ × ℕ)) (key p : ℕ) :
    TW.lookupTimers (TW.setTimerPos timers key p) key = some p := by
  unfold TW.setTimerPos
  by_cases h : (timers.find? (fun q => q.1 = key)).isSome
  · rw [if_pos h]
    induction timers with
    | nil => simp at h
    | cons q t ih =>
      by_cases hq : q.1 = key
      · unfold TW.lookupTimers
        rw [List.map_cons, if_pos hq,
          List.find?_cons_of_pos _ (by simp)]
        rfl
      · have hq' : (List.find? (fun r => r.1 = key) t).isSome := by
          rw [List.find?_cons_of_neg t (by simp [hq])] at h
          exact h
        unfold TW.lookupTimers
        rw [List.map_cons, if_neg hq,
          List.find?_cons_of_neg _ (by simp [hq])]
        exact ih hq'
  · rw [if_neg h]
    have hn : timers.find? (fun q => q.1 = key) = none := by
      cases hfind : timers.find? (fun q => q.1 = key)
      · rfl
      · rw [hfind] at h; simp at h
    unfold TW.lookupTimers
    rw [List.find?_append, hn]
    simp

/-- `moveTask` with a delay of at least one interval never fires the callback
immediately. -/
theorem tw_moveTask_not_fired (w : TW.Wheel) (key : ℕ) (d : ℤ)
    (hd : w.interval ≤ d) : (TW.moveTask w key d).2 = false := by
  have hnlt : ¬ d < w.interval := not_lt.mpr hd
  cases hk : TW.lookupTimers w.timers key with
  | none => simp [TW.moveTask, hk]
  | some pos =>
    by_cases h1 : (pos : ℤ) ≤ (TW.getPositionAndCircle w d).1
    · simp [TW.moveTask, hk, hnlt, h1]
    · by_cases h2 : 0 < (TW.getPositionAndCircle w d).2
      · simp [TW.moveTask, hk, hnlt, h1, h2]
      · simp [TW.moveTask, hk, hnlt, h1, h2]

/-- C7: for a `moveTimer(key, d)` on an existing entry indexed at slot `pos`:
if `d < interval` the callback fires immediately and the wheel is untouched;
otherwise nothing fires and, with `(pos', circle')` recomputed from `d`,
either `pos' ≥ pos` or `circle' > 0` and only the entry's `circle`/`diff`
fields change (slot shape, keys, values, delays, removed flags and the timers
index are untouched), or `pos' < pos ∧ circle' = 0` (and `circle' ≥ 0`
always) and the entry is marked removed while a replacement — old value, new
delay, circle 0, diff 0, not removed — is appended at slot `pos'` and the
index is repointed there. -/
theorem tw_movetimer_cases (w : TW.Wheel) (key : ℕ) (d : ℤ) (pos : ℕ)
    (hk : TW.lookupTimers w.timers key = some pos)
    (hint : 0 < w.interval) (hns : 0 < w.numSlots)
    (hlen : w.slots.length = w.numSlots) :
    (d < w.interval → TW.moveTask w key d = (w, true))
    ∧ (w.interval ≤ d →
        (TW.moveTask w key d).2 = false
        ∧ 0 ≤ (TW.getPositionAndCircle w d).2
        ∧ (((pos : ℤ) ≤ (TW.getPositionAndCircle w d).1
              ∨ 0 < (TW.getPositionAndCircle w d).2) →
            ((TW.moveTask w key d).1.slots.map (List.map TW.eraseCD)
                = w.slots.map (List.map TW.eraseCD)
              ∧ (TW.moveTask w key d).1.timers = w.timers))
        ∧ (((TW.getPositionAndCircle w d).1 < (pos : ℤ)
              ∧ (TW.getPositionAndCircle w d).2 = 0) →
            (TW.lookupTimers (TW.moveTask w key d).1.timers key
                = some (TW.getPositionAndCircle w d).1.toNat
              ∧ ((TW.moveTask w key d).1.slots.getD
                    (TW.getPositionAndCircle w d).1.toNat []).getLast?
                  = some ⟨key, ((TW.findEntry w.slots key).map TW.Entry.value).getD 0,
                      d, 0, 0, false⟩
              ∧ ∀ e ∈ w.slots.flatten, e.key = key →
                  { e with removed := true } ∈ (TW.moveTask w key d).1.slots.flatten))) := by
  constructor
  · intro hd
    unfold TW.moveTask
    rw [hk]
    simp [hd]
  · intro hd
    have hnlt : ¬ d < w.interval := not_lt.mpr hd
    have h0d : (0 : ℤ) ≤ d := le_of_lt (lt_of_lt_of_le hint hd)
    have hsteps : 1 ≤ d.tdiv w.interval := by
      rw [Int.tdiv_eq_ediv h0d (le_of_lt hint), Int.le_ediv_iff_mul_le hint]
      simpa using hd
    have hns' : (0 : ℤ) < (w.numSlots : ℤ) := by exact_mod_cast hns
    have hpc : TW.getPositionAndCircle w d
        = (((w.tickedPos : ℤ) + d.tdiv w.interval).tmod (w.numSlots : ℤ),
          (d.tdiv w.interval - 1).tdiv (w.numSlots : ℤ)) := rfl
    have hcnn : 0 ≤ (TW.getPositionAndCircle w d).2 := by
      rw [hpc]
      exact Int.tdiv_nonneg (by linarith) (le_of_lt hns')
    have hpos0 : 0 ≤ (TW.getPositionAndCircle w d).1 := by
      rw [hpc]
      show 0 ≤ Int.tmod _ _
      rw [Int.tmod_eq_emod
        (add_nonneg (Int.natCast_nonneg _) (by linarith)) (le_of_lt hns')]
      exact Int.emod_nonneg _ (ne_of_gt hns')
    have hposlt : (TW.getPositionAndCircle w d).1 < (w.numSlots : ℤ) := by
      rw [hpc]
      show Int.tmod _ _ < _
      rw [Int.tmod_eq_emod
        (add_nonneg (Int.natCast_nonneg _) (by linarith)) (le_of_lt hns')]
      exact Int.emod_lt_of_pos _ hns'
    refine ⟨tw_moveTask_not_fired w key d hd, hcnn, ?_, ?_⟩
    · intro hor
      have heq : TW.moveTask w key d = ({ w with slots := TW.setEntryFields w.slots key (fun e => { e with circle := (TW.getPositionAndCircle w d).2, diff := (TW.getPositionAndCircle w d).1 - pos }) }, false) ∨ TW.moveTask w key d = ({ w with slots := TW.setEntryFields w.slots key (fun e => { e with circle := (TW.getPositionAndCircle w d).2 - 1, diff := (w.numSlots : ℤ) + (TW.getPositionAndCircle w d).1 - pos }) }, false) := by
        by_cases h1 : (pos : ℤ) ≤ (TW.getPositionAndCircle w d).1
        · left
          unfold TW.moveTask
          rw [hk]
          simp [hnlt, h1]
        · right
          have h2 : 0 < (TW.getPositionAndCircle w d).2 := by
            rcases hor with h | h
            · exact absurd h h1
            · exact h
          unfold TW.moveTask
          rw [hk]
          simp [hnlt, h1, h2]
      rcases heq with heq | heq <;> rw [heq] <;>
        exact ⟨tw_eraseCD_setEntryFields _ _ _ (fun e => rfl), rfl⟩
    · rintro ⟨h1, h2⟩
      have hn1 : ¬ (pos : ℤ) ≤ (TW.getPositionAndCircle w d).1 := not_le.mpr h1
      have hn2 : ¬ 0 < (TW.getPositionAndCircle w d).2 := by omega
      have heq : TW.moveTask w key d = ({ w with slots := TW.pushBack (TW.setEntryFields w.slots key (fun e => { e with removed := true })) (TW.getPositionAndCircle w d).1.toNat ⟨key, ((TW.findEntry w.slots key).map TW.Entry.value).getD 0, d, 0, 0, false⟩, timers := TW.setTimerPos w.timers key (TW.getPositionAndCircle w d).1.toNat }, false) := by
        unfold TW.moveTask
        rw [hk]
        simp [hnlt, hn1, hn2]
      rw [heq]
      refine ⟨tw_lookup_setTimerPos _ _ _, ?_, ?_⟩
      · have hlt : (TW.getPositionAndCircle w d).1.toNat
            < (TW.setEntryFields w.slots key (fun e => { e with removed := true })).length := by
          unfold TW.setEntryFields
          rw [List.length_map, hlen]
          exact (Int.toNat_lt hpos0).mpr hposlt
        show ((TW.pushBack _ _ _).getD _ []).getLast? = _
        unfold TW.pushBack
        rw [List.getD_eq_getElem?_getD, List.getElem?_set_self hlt]
        exact List.getLast?_concat _
      · intro e he hekey
        have hmem := tw_mem_flatten_setEntryFields w.slots key
          (fun e => { e with removed := true }) e he
        rw [if_pos hekey] at hmem
        exact tw_mem_flatten_pushBack _ _ _ _ hmem

/-- Closed instance of `tw_movetimer_cases`: moving an existing entry to a
delay below one interval fires immediately and leaves the wheel unchanged. -/
theorem tw_movetimer_cases_witness :
    TW.moveTask ⟨10, 4, 3, [[], [⟨7, 42, 25, 0, 0, false⟩], [], []], [(7, 1)]⟩ 7 3
      = (⟨10, 4, 3, [[], [⟨7, 42, 25, 0, 0, false⟩], [], []], [(7, 1)]⟩, true) :=
  (tw_movetimer_cases ⟨10, 4, 3, [[], [⟨7, 42, 25, 0, 0, false⟩], [], []], [(7, 1)]⟩
    7 3 1 (by decide) (by decide) (by decide) (by decide)).1 (by decide)

/-- C10: `setTask` silently clamps a sub-interval delay up to one interval
before computing the position: the call behaves exactly as a `SetTimer` with
delay `interval`, never fires anything immediately, and for a fresh key
appends the entry — carrying the clamped delay and circle 0 — at slot
`(tickedPos + 1) mod numSlots`, i.e. the next tick; by contrast `moveTask`
on an existing key with the same `d < interval` fires the callback
immediately and leaves the wheel unchanged. -/
theorem tw_settimer_clamps (w : TW.Wheel) (key value : ℕ) (d : ℤ)
    (hint : 0 < w.interval) (_h0 : 0 < d) (hdi : d < w.interval) :
    TW.setTask w key value d = TW.setTask w key value w.interval
    ∧ (TW.setTask w key value d).2 = false
    ∧ (TW.lookupTimers w.timers key = none →
        TW.setTask w key value d = ({ w with slots := TW.pushBack w.slots ((w.tickedPos + 1) % w.numSlots) ⟨key, value, w.interval, 0, 0, false⟩, timers := TW.setTimerPos w.timers key ((w.tickedPos + 1) % w.numSlots) }, false))
    ∧ (∀ pos, TW.lookupTimers w.timers key = some pos →
        TW.moveTask w key d = (w, true)) := by
  have hclamp : TW.setTask w key value d = TW.setTask w key value w.interval := by
    unfold TW.setTask
    rw [if_pos hdi, if_neg (lt_irrefl w.interval)]
  have hsteps : w.interval.tdiv w.interval = 1 := Int.tdiv_self (ne_of_gt hint)
  have hpc : TW.getPositionAndCircle w w.interval
      = (((w.tickedPos : ℤ) + 1).tmod (w.numSlots : ℤ), 0) := by
    unfold TW.getPositionAndCircle
    rw [hsteps]
    norm_num
  have htn : (((w.tickedPos : ℤ) + 1).tmod (w.numSlots : ℤ)).toNat
      = (w.tickedPos + 1) % w.numSlots := by
    rw [Int.tmod_eq_emod (by positivity) (Int.natCast_nonneg _)]
    rw [show ((w.tickedPos : ℤ) + 1) = ((w.tickedPos + 1 : ℕ) : ℤ) by push_cast; ring]
    rw [← Int.natCast_mod]
    exact Int.toNat_natCast _
  refine ⟨hclamp, ?_, ?_, ?_⟩
  · rw [hclamp]
    unfold TW.setTask
    rw [if_neg (lt_irrefl w.interval)]
    cases hk : TW.lookupTimers w.timers key with
    | none => simp [hk]
    | some pos =>
      simp only [hk]
      exact tw_moveTask_not_fired _ key w.interval le_rfl
  · intro hk
    rw [hclamp]
    unfold TW.setTask
    rw [if_neg (lt_irrefl w.interval)]
    simp only [hk]
    rw [hpc]
    simp [htn]
  · intro pos hk
    unfold TW.moveTask
    rw [hk]
    simp [hdi]

/-- Closed instance of `tw_settimer_clamps`: a fresh timer with delay 3 on a
10-tick wheel lands at the next slot with the clamped delay 10. -/
theorem tw_settimer_clamps_witness :
    TW.setTask ⟨10, 4, 3, [[], [], [], []], []⟩ 7 42 3
      = ({ interval := 10, numSlots := 4, tickedPos := 3, slots := TW.pushBack [[], [], [], []] 0 ⟨7, 42, 10, 0, 0, false⟩, timers := TW.setTimerPos [] 7 0 }, false) :=
  (tw_settimer_clamps ⟨10, 4, 3, [[], [], [], []], []⟩ 7 42 3
    (by decide) (by decide) (by decide)).2.2.1 (by decide)

/-- C6: for a 5-bucket/100 ms window with `Add(1)` at `t = 0` and `Add(2)` at
`t = 250`, the slide on the second `Add` computes `span = 2 =
min(size, ⌊(now − lastTime)/interval⌋)`, resets the expired buckets at
offsets 1 and 2, advances the offset to 2, snaps `lastTime` to 200, and the
subsequent `Reduce` sums to 3 with the current bucket holding 2. -/
theorem rollingwindow_slide_scenario :
    ((RollingWindow.new 5 100 false 0).addAt 0 1).span 250 = 2
    ∧ (2 : ℕ) = min 5
        (((250 : ℤ) - ((RollingWindow.new 5 100 false 0).addAt 0 1).lastTime).tdiv 100).toNat
    ∧ (((RollingWindow.new 5 100 false 0).addAt 0 1).updateOffset 250).buckets.getD 1
        Bucket.zero = Bucket.zero
    ∧ (((RollingWindow.new 5 100 false 0).addAt 0 1).updateOffset 250).buckets.getD 2
        Bucket.zero = Bucket.zero
    ∧ (((RollingWindow.new 5 100 false 0).addAt 0 1).updateOffset 250).offset = 2
    ∧ (((RollingWindow.new 5 100 false 0).addAt 0 1).updateOffset 250).lastTime = 200
    ∧ (((RollingWindow.new 5 100 false 0).addAt 0 1).addAt 250 2).reduceSum 250 = 3
    ∧ (((RollingWindow.new 5 100 false 0).addAt 0 1).addAt 250 2).buckets.getD 2
        Bucket.zero = { sum := 2, count := 1 }
    ∧ (((RollingWindow.new 5 100 false 0).addAt 0 1).addAt 250 2).offset = 2 := by
  have hs1 : (RollingWindow.new 5 100 false 0).addAt 0 1 =
      { size := 5, buckets := [⟨1, 1⟩, ⟨0, 0⟩, ⟨0, 0⟩, ⟨0, 0⟩, ⟨0, 0⟩],
        interval := 100, offset := 0, ignoreCurrent := false, lastTime := 0 } := by
    norm_num [RollingWindow.new, RollingWindow.addAt, RollingWindow.updateOffset,
      RollingWindow.span, RollingWindow.winAdd, Bucket.badd, Bucket.zero,
      List.replicate, List.set, List.getD]
  have htd : Int.tdiv 250 100 = 2 := by decide
  have htm : Int.tmod 250 100 = 50 := by decide
  have hmid : ((RollingWindow.new 5 100 false 0).addAt 0 1).updateOffset 250 =
      { size := 5, buckets := [⟨1, 1⟩, ⟨0, 0⟩, ⟨0, 0⟩, ⟨0, 0⟩, ⟨0, 0⟩],
        interval := 100, offset := 2, ignoreCurrent := false, lastTime := 200 } := by
    rw [hs1]
    norm_num [RollingWindow.updateOffset, RollingWindow.span,
      RollingWindow.resetSpan, RollingWindow.resetBucket, Bucket.zero,
      List.set, htd, htm]
    decide
  have hs2 : ((RollingWindow.new 5 100 false 0).addAt 0 1).addAt 250 2 =
      { size := 5, buckets := [⟨1, 1⟩, ⟨0, 0⟩, ⟨2, 1⟩, ⟨0, 0⟩, ⟨0, 0⟩],
        interval := 100, offset := 2, ignoreCurrent := false, lastTime := 200 } := by
    rw [RollingWindow.addAt, hmid]
    norm_num [RollingWindow.winAdd, Bucket.badd, Bucket.zero, List.set, List.getD]
  refine ⟨?_, ?_, ?_, ?_, ?_, ?_, ?_, ?_, ?_⟩
  · rw [hs1]; decide
  · rw [hs1]; decide
  · rw [hmid]; decide
  · rw [hmid]; decide
  · rw [hmid]
  · rw [hmid]
  · rw [hs2]
    have htd2 : Int.tdiv 50 100 = 0 := by decide
    norm_num [RollingWindow.reduceSum, RollingWindow.reduceBuckets,
      RollingWindow.reduceIndices, RollingWindow.span, htd2, List.range,
      List.range.loop, List.getD, Bucket.zero]
  · rw [hs2]; decide
  · rw [hs2]

end GoZero
